import Mathlib

/- Shallow embedding of the deterministic text-relevance engine of the
Dev-otion repository: the local pseudo-embedding generators
(`supabase/functions/generate-embeddings-local/index.ts` and
`supabase/functions/gemini-chat-hf/index.ts`), the mind-map keyword
extraction and pairwise text similarity
(`src/components/InteractiveMindMap.tsx`), and the note search scoring and
sorting (`src/components/NotesListView.tsx`).

Modelling conventions: JavaScript strings are `List Char`; JavaScript
numbers are exact (`ℚ` for the purely rational computations, `ℝ` where the
source uses `Math.sin`/`Math.sqrt`/`Math.log`); the JavaScript `NaN`
produced by `0/0` is modelled as `Option.none`; JavaScript arrays are
lists, with `arr[i] += x` modelled by `List.set`. -/

/-- ASCII word character: the JavaScript regex class `\w` = `[A-Za-z0-9_]`. -/
def isWordChar (c : Char) : Bool := c.isAlphanum || c = '_'

/-- JavaScript regex class `\s` (ASCII range, as exercised by the sources). -/
def isSpaceChar (c : Char) : Bool := c.isWhitespace

/-- JavaScript `String.prototype.toLowerCase` (ASCII range). -/
def jsToLower (s : List Char) : List Char := s.map Char.toLower

/-- Worker for `splitRuns`: `inSep` records whether the previous character
belonged to a separator run, `cur` holds the (reversed) current token. -/
def splitRunsAux (p : Char → Bool) : List Char → Bool → List Char → List (List Char)
  | [], _, cur => [cur.reverse]
  | c :: rest, inSep, cur =>
    if p c then
      if inSep then splitRunsAux p rest true []
      else cur.reverse :: splitRunsAux p rest true []
    else splitRunsAux p rest false (c :: cur)

/-- JavaScript `String.prototype.split` on a regex matching one-or-more
separator characters (`/\s+/`, `/\W+/`): separators are maximal runs of
characters satisfying `p`; a leading (trailing) run yields a leading
(trailing) empty token, and the empty string yields `[[]]`. -/
def splitRuns (p : Char → Bool) (s : List Char) : List (List Char) :=
  splitRunsAux p s false []

/-- JavaScript `String.prototype.trim`. -/
def jsTrim (s : List Char) : List Char :=
  ((s.dropWhile isSpaceChar).reverse.dropWhile isSpaceChar).reverse

/-- JavaScript `hay.includes(needle)`: containment as a contiguous substring. -/
def jsIncludes (hay needle : List Char) : Bool := decide (needle <:+: hay)

/-- Wrap an integer into the signed 32-bit range, as the JavaScript bitwise
operators do (the `ToInt32` conversion performed by `<<` and `&`). -/
def toInt32 (n : ℤ) : ℤ := (n + 2 ^ 31) % 2 ^ 32 - 2 ^ 31

/-- `hashString` (textually identical in generate-embeddings-local/index.ts
and gemini-chat-hf/index.ts): for each character,
`hash = (hash << 5) - hash + charCode` followed by `hash = hash & hash`
(which wraps to signed 32 bits), and finally `Math.abs(hash)`. -/
def hashString (s : List Char) : ℤ :=
  |s.foldl (fun h c => toInt32 (toInt32 (h * 32) - h + c.toNat)) 0|

/-- `word.charCodeAt(i)` (in-range accesses only are exercised). -/
def charCodeAt (w : List Char) (i : ℕ) : ℕ := ((w[i]?).map Char.toNat).getD 0

/-- Accumulation index `(wordHash + i * 17) % 384` of character `i` of a word. -/
def wordPos (w : List Char) (i : ℕ) : ℕ := ((hashString w + i * 17) % 384).toNat

/-- Trigram accumulation index `trigramHash % 384`. -/
def triPos1 (t : List Char) : ℕ := (hashString t % 384).toNat

/-- Trigram accumulation index `(trigramHash * 7) % 384`. -/
def triPos2 (t : List Char) : ℕ := (hashString t * 7 % 384).toNat

/-- Read `v[i]` of a JavaScript number array (only in-range reads occur). -/
def vget (v : List ℝ) (i : ℕ) : ℝ := (v[i]?).getD 0

/-- `v[i] += x` on a JavaScript number array. -/
noncomputable def vadd (v : List ℝ) (i : ℕ) (x : ℝ) : List ℝ := v.set i (vget v i + x)

/-- The word list both embedders start from:
`text.toLowerCase().replace(/[^\w\s]/g, '').split(/\s+/).filter(w => w.length > 0)`. -/
def embedWords (s : List Char) : List (List Char) :=
  (splitRuns isSpaceChar
    ((jsToLower s).filter (fun c => isWordChar c || isSpaceChar c))).filter
    (fun w => 0 < w.length)

/-- `embedding.reduce((sum, val) => sum + val * val, 0)`. -/
def sumSq (v : List ℝ) : ℝ := (v.map (fun x => x * x)).sum

/-- `Math.sqrt(embedding.reduce((sum, val) => sum + val * val, 0))`. -/
noncomputable def magnitude (v : List ℝ) : ℝ := Real.sqrt (sumSq v)

/-- Final normalization step, textually shared by both embedders: divide
every component by the magnitude when it is positive, otherwise return the
vector unchanged. -/
noncomputable def normalizeVec (v : List ℝ) : List ℝ :=
  if 0 < magnitude v then v.map (fun x => x / magnitude v) else v

namespace EmbedLocal

/-- Word loop of `generateLocalEmbedding` in generate-embeddings-local:
for the word at 0-based position `index`, for each `i < min(word.length, 10)`,
`embedding[(wordHash + i*17) % 384] += Math.sin(charCode * 0.1) * (1 / Math.sqrt(index + 1))`. -/
noncomputable def addWord (v : List ℝ) (index : ℕ) (w : List Char) : List ℝ :=
  (List.range (min w.length 10)).foldl
    (fun acc i =>
      vadd acc (wordPos w i)
        (Real.sin ((charCodeAt w i : ℝ) * 0.1) * (1 / Real.sqrt ((index : ℝ) + 1)))) v

/-- The overlapping character trigrams `text.slice(i, i + 3).toLowerCase()`
of the raw text, for `0 ≤ i < text.length - 2`. -/
def trigrams (s : List Char) : List (List Char) :=
  (List.range (s.length - 2)).map (fun i => jsToLower ((s.drop i).take 3))

/-- `embedding[trigramHash % 384] += 0.2; embedding[(trigramHash * 7) % 384] += 0.1`. -/
noncomputable def addTrigram (v : List ℝ) (t : List Char) : List ℝ :=
  vadd (vadd v (triPos1 t) 0.2) (triPos2 t) 0.1

/-- The embedding accumulated before normalization. -/
noncomputable def rawEmbedding (s : List Char) : List ℝ :=
  (trigrams s).foldl addTrigram
    ((embedWords s).enum.foldl (fun acc p => addWord acc p.1 p.2) (List.replicate 384 0))

/-- `generateLocalEmbedding` from
supabase/functions/generate-embeddings-local/index.ts (lines 18-51). -/
noncomputable def generateLocalEmbedding (s : List Char) : List ℝ :=
  normalizeVec (rawEmbedding s)

end EmbedLocal

namespace ChatHf

/-- `const chars = text.toLowerCase().replace(/[^\w]/g, '')`. -/
def chars (s : List Char) : List Char := (jsToLower s).filter isWordChar

/-- Word loop of `generateLocalEmbedding` in gemini-chat-hf: cap
`i < word.length && i < 50`, weight `1 / (index + 1)` (no square root). -/
noncomputable def addWord (v : List ℝ) (index : ℕ) (w : List Char) : List ℝ :=
  (List.range (min w.length 50)).foldl
    (fun acc i =>
      vadd acc (wordPos w i)
        (Real.sin ((charCodeAt w i : ℝ) * 0.1) * (1 / ((index : ℝ) + 1)))) v

/-- Character trigrams of the punctuation-stripped `chars` string. -/
def trigrams (s : List Char) : List (List Char) :=
  (List.range ((chars s).length - 2)).map (fun i => ((chars s).drop i).take 3)

/-- `embedding[pos1] += 0.5; embedding[pos2] += 0.3`. -/
noncomputable def addTrigram (v : List ℝ) (t : List Char) : List ℝ :=
  vadd (vadd v (triPos1 t) 0.5) (triPos2 t) 0.3

/-- Text length and complexity features: for `i < 20`,
`embedding[i] += avgWordLength * 0.1; embedding[i+20] += complexity * 0.2;
embedding[i+40] += text.length * 0.001`. -/
noncomputable def addFeatures (s : List Char) (v : List ℝ) : List ℝ :=
  let ws := embedWords s
  let awl : ℝ := ((ws.foldl (fun a w => a + w.length) 0 : ℕ) : ℝ) / ((max ws.length 1 : ℕ) : ℝ)
  let cx : ℝ := ((ws.dedup.length : ℕ) : ℝ) / ((max ws.length 1 : ℕ) : ℝ)
  (List.range 20).foldl
    (fun acc i =>
      vadd (vadd (vadd acc i (awl * 0.1)) (i + 20) (cx * 0.2)) (i + 40) ((s.length : ℝ) * 0.001))
    v

/-- `generateLocalEmbedding` from supabase/functions/gemini-chat-hf/index.ts
(lines 17-66). -/
noncomputable def generateLocalEmbedding (s : List Char) : List ℝ :=
  normalizeVec (addFeatures s
    ((trigrams s).foldl addTrigram
      ((embedWords s).enum.foldl (fun acc p => addWord acc p.1 p.2) (List.replicate 384 0))))

end ChatHf

namespace MindMap

/-- The stop-word set of `extractKeywords` in InteractiveMindMap.tsx,
transcribed in source order (the source list repeats a few entries; a
JavaScript `Set` deduplicates, and only membership is ever used). -/
def stopWords : List (List Char) :=
  ["the".toList, "a".toList, "an".toList, "and".toList, "or".toList, "but".toList,
   "in".toList, "on".toList, "at".toList, "to".toList, "for".toList,
   "of".toList, "with".toList, "by".toList, "is".toList, "are".toList, "was".toList,
   "were".toList, "be".toList, "been".toList, "have".toList,
   "has".toList, "had".toList, "do".toList, "does".toList, "did".toList, "will".toList,
   "would".toList, "could".toList, "should".toList,
   "this".toList, "that".toList, "these".toList, "those".toList, "they".toList,
   "them".toList, "their".toList, "there".toList,
   "where".toList, "when".toList, "what".toList, "who".toList, "why".toList,
   "how".toList, "can".toList, "may".toList, "might".toList,
   "must".toList, "shall".toList, "should".toList, "will".toList, "would".toList,
   "could".toList, "from".toList, "into".toList,
   "through".toList, "during".toList, "before".toList, "after".toList, "above".toList,
   "below".toList, "up".toList, "down".toList,
   "out".toList, "off".toList, "over".toList, "under".toList, "again".toList,
   "further".toList, "then".toList, "once".toList]

/-- `content.toLowerCase().replace(/[^\w\s]/g, ' ').split(/\s+/).filter(word => word.length > 3)`. -/
def kwWords (content : List Char) : List (List Char) :=
  (splitRuns isSpaceChar
    ((jsToLower content).map (fun c => if isWordChar c || isSpaceChar c then c else ' '))).filter
    (fun word => 3 < word.length)

/-- `words.filter(word => !stopWords.has(word))` — the tokenizer/normalizer
of §4.1, as implemented at the head of `extractKeywords`. -/
def filteredWords (content : List Char) : List (List Char) :=
  (kwWords content).filter (fun word => !(stopWords.contains word))

/-- Modelled from the spec: the §4.1 normalizer as the spec words it,
"replace every character that is not a letter, digit, or whitespace with a
space" — i.e. WITHOUT the underscore that the source's `\w` keeps.  This
definition follows the spec's words, not the source, and exists only to be
compared against `filteredWords`. -/
def claimedNormalize (content : List Char) : List (List Char) :=
  ((splitRuns isSpaceChar
    ((jsToLower content).map (fun c => if c.isAlphanum || isSpaceChar c then c else ' '))).filter
    (fun word => 3 < word.length)).filter (fun word => !(stopWords.contains word))

/-- Worker for `dedupFirst`: `seen` holds the keys already emitted. -/
def dedupFirstAux (seen : List (List Char)) : List (List Char) → List (List Char)
  | [] => []
  | a :: l => if seen.contains a then dedupFirstAux seen l else a :: dedupFirstAux (a :: seen) l

/-- First-occurrence deduplication of a token list: the creation order of
the term-frequency object's keys.  This is the enumeration order only of
its non-integer-like keys; `objectKeys` below applies the full JavaScript
own-property-key order. -/
def dedupFirst (l : List (List Char)) : List (List Char) := dedupFirstAux [] l

/-- `text.toLowerCase().split(/\W+/).filter(w => w.length > 2)`. -/
def simTokens (s : List Char) : List (List Char) :=
  (splitRuns (fun c => !(isWordChar c)) (jsToLower s)).filter (fun w => 2 < w.length)

/-- `new Set([...set1].filter(x => set2.has(x))).size`. -/
def interSize (a b : List (List Char)) : ℕ :=
  (a.dedup.filter (fun x => b.contains x)).length

/-- `new Set([...set1, ...set2]).size`. -/
def unionSize (a b : List (List Char)) : ℕ := (a ++ b).dedup.length

/-- `calculateSemanticSimilarity` from InteractiveMindMap.tsx (lines
104-127).  The source computes `intersection.size / union.size`; when both
token sets are empty this is the JavaScript `0/0 = NaN`, modelled as `none`
(`NaN` propagates through the final blend).  The same guard is placed on
`Math.max(text1.length, text2.length) = 0`, the other division of the
source, though it is subsumed by the first. -/
def calculateSemanticSimilarity (t1 t2 : List Char) : Option ℚ :=
  let w1 := simTokens t1
  let w2 := simTokens t2
  if unionSize w1 w2 = 0 then none
  else if max t1.length t2.length = 0 then none
  else some
    (((interSize w1 w2 : ℚ) / (unionSize w1 w2 : ℚ)) * 0.7 +
      (1 - |(t1.length : ℚ) - (t2.length : ℚ)| / ((max t1.length t2.length : ℕ) : ℚ)) * 0.3)

end MindMap

namespace NotesList

/-- The note fields read by the search/sort logic of NotesListView.tsx;
timestamps are milliseconds since the epoch (`new Date(x).getTime()`). -/
structure Doc where
  title : List Char
  tags : List (List Char)
  content : List Char
  createdAt : ℤ
  updatedAt : ℤ
deriving DecidableEq

/-- `const query = searchQuery.toLowerCase().trim()`. -/
def queryOf (searchQuery : List Char) : List Char := jsTrim (jsToLower searchQuery)

/-- `(Date.now() - new Date(note.updated_at).getTime()) / (1000*60*60*24) < 7`. -/
def isRecent (now updatedAt : ℤ) : Bool := ((now - updatedAt : ℚ) / 86400000) < 7

/-- The relevance score of `searchResults` in NotesListView.tsx (lines
73-107), accumulated in source order for a (lower-cased, trimmed) query. -/
def searchScore (now : ℤ) (q : List Char) (n : Doc) : ℤ :=
  let s1 : ℤ := 0 + (if jsIncludes (jsToLower n.title) q then 10 else 0)
  let s2 := s1 + (if jsToLower n.title = q then 20 else 0)
  let s3 := s2 + ((n.tags.filter (fun tag => jsIncludes (jsToLower tag) q)).length : ℤ) * 5
  let s4 := s3 + (if n.tags.any (fun tag => jsToLower tag = q) then 10 else 0)
  let s5 := (splitRuns isSpaceChar q).foldl
    (fun acc qw =>
      (splitRuns isSpaceChar (jsToLower n.content)).foldl
        (fun acc2 w => if jsIncludes w qw then acc2 + (if w = qw then 3 else 1) else acc2) acc)
    s4
  s5 + (if isRecent now n.updatedAt then 1 else 0)

/-- The `searchResults` memo (lines 68-109): with a query that trims to
empty the notes are returned unscored (score `none`, JavaScript
`undefined`); otherwise every note is scored and only notes with
`searchScore > 0` are kept. -/
def searchResults (now : ℤ) (searchQuery : List Char) (notes : List Doc) :
    List (Doc × Option ℤ) :=
  if jsTrim searchQuery = [] then notes.map (fun n => (n, none))
  else (notes.map (fun n => (n, some (searchScore now (queryOf searchQuery) n)))).filter
    (fun p => 0 < p.2.getD 0)

/-- `sortBy` state: one of `'updated' | 'created' | 'title' | 'relevance'`. -/
inductive SortKey
  | updated
  | created
  | title
  | relevance
deriving DecidableEq

/-- `sortOrder` state: `'asc' | 'desc'`. -/
inductive SortDir
  | asc
  | desc
deriving DecidableEq

/-- Model of `String.prototype.localeCompare` as code-point lexicographic
comparison (adequate for the ASCII titles exercised here). -/
def localeCompare : List Char → List Char → ℤ
  | [], [] => 0
  | [], _ :: _ => -1
  | _ :: _, [] => 1
  | a :: as, b :: bs =>
    if a.toNat < b.toNat then -1 else if b.toNat < a.toNat then 1 else localeCompare as bs

/-- The `switch (sortBy)` comparison of `sortedResults` (lines 121-138);
for `relevance` it is `(b.searchScore || 0) - (a.searchScore || 0)`.  Every
comparator value produced by the source is an integer (score and timestamp
differences, and the −1/0/1 of `localeCompare`), so the comparator is
modelled in `ℤ`. -/
def comparison (k : SortKey) (a b : Doc × Option ℤ) : ℤ :=
  match k with
  | .relevance => b.2.getD 0 - a.2.getD 0
  | .title => localeCompare a.1.title b.1.title
  | .created => a.1.createdAt - b.1.createdAt
  | .updated => a.1.updatedAt - b.1.updatedAt

/-- `return sortOrder === 'asc' ? comparison : -comparison` (line 140). -/
def jsComparator (k : SortKey) (d : SortDir) (a b : Doc × Option ℤ) : ℤ :=
  if d = SortDir.asc then comparison k a b else -(comparison k a b)

/-- One insertion step of a stable comparator sort: the new element is
placed after every earlier `y` with `cmp(y, x) ≤ 0`. -/
def insertCmp {α : Type} (cmp : α → α → ℤ) (x : α) : List α → List α
  | [] => [x]
  | y :: ys => if cmp y x ≤ 0 then y :: insertCmp cmp x ys else x :: y :: ys

/-- Stable sort by a JavaScript comparator (`Array.prototype.sort(cmp)`,
stable per ES2019). -/
def jsSort {α : Type} (cmp : α → α → ℤ) (l : List α) : List α :=
  l.foldl (fun acc x => insertCmp cmp x acc) []

/-- The `sortedResults` memo (lines 118-144), for `filterTag === 'all'`
(the tag filter is an unrelated pass between scoring and sorting). -/
def sortedResults (k : SortKey) (d : SortDir) (results : List (Doc × Option ℤ)) :
    List (Doc × Option ℤ) :=
  jsSort (jsComparator k d) results

end NotesList

/-- Example note whose title exactly equals the query `"foo"`. -/
def fooDoc : NotesList.Doc := ⟨"foo".toList, [], [], 0, 0⟩

/-- Example note whose title merely contains `"foo"`, with content repeating
the query word eleven times. -/
def fooxDoc : NotesList.Doc :=
  ⟨"foox".toList, [], "foo foo foo foo foo foo foo foo foo foo foo".toList, 0, 0⟩

/-- Example note matching the query `"foo"` nowhere. -/
def barDoc : NotesList.Doc := ⟨"bar".toList, [], [], 0, 0⟩

/-- Example note like `fooxDoc` but with empty content, so that it differs
from `fooDoc` only in its title. -/
def fooxPlainDoc : NotesList.Doc := ⟨"foox".toList, [], [], 0, 0⟩

/-- Example note matching the query `"foo"` nowhere, but updated at the
observation instant itself, so the recency boost applies. -/
def recentBarDoc : NotesList.Doc := ⟨"bar".toList, [], [], 0, 10 ^ 13⟩

/-- An example clock instant (milliseconds), far later than the example
notes' `updatedAt = 0`, so no recency boost applies. -/
def exNow : ℤ := 10 ^ 13

/-- A punctuation-only text: its word list is empty under both embedders,
but the two embedders disagree about its trigrams and features. -/
def bangs : List Char := "!!!".toList

theorem vadd_length (v : List ℝ) (i : ℕ) (x : ℝ) : (vadd v i x).length = v.length := by
  simp [vadd]

theorem foldl_length_const {α : Type} (f : List ℝ → α → List ℝ)
    (h : ∀ v a, (f v a).length = v.length) :
    ∀ (l : List α) (v : List ℝ), (l.foldl f v).length = v.length := by
  intro l
  induction l with
  | nil => intro v; rfl
  | cons a l ih => intro v; rw [List.foldl_cons, ih, h]

theorem addWord_length (v : List ℝ) (index : ℕ) (w : List Char) :
    (EmbedLocal.addWord v index w).length = v.length := by
  unfold EmbedLocal.addWord
  exact foldl_length_const _ (fun v i => vadd_length _ _ _) _ _

theorem addTrigram_length (v : List ℝ) (t : List Char) :
    (EmbedLocal.addTrigram v t).length = v.length := by
  unfold EmbedLocal.addTrigram
  rw [vadd_length, vadd_length]

theorem rawEmbedding_length (s : List Char) : (EmbedLocal.rawEmbedding s).length = 384 := by
  unfold EmbedLocal.rawEmbedding
  have h1 := foldl_length_const EmbedLocal.addTrigram addTrigram_length (EmbedLocal.trigrams s)
    ((embedWords s).enum.foldl (fun acc p => EmbedLocal.addWord acc p.1 p.2)
      (List.replicate 384 0))
  have h2 := foldl_length_const (fun acc (p : ℕ × List Char) => EmbedLocal.addWord acc p.1 p.2)
    (fun v p => addWord_length v p.1 p.2) (embedWords s).enum (List.replicate 384 0)
  rw [h1, h2, List.length_replicate]

theorem sumSq_nonneg (v : List ℝ) : 0 ≤ sumSq v := by
  apply List.sum_nonneg
  intro x hx
  obtain ⟨y, -, rfl⟩ := List.mem_map.1 hx
  exact mul_self_nonneg y

theorem magnitude_nonneg (v : List ℝ) : 0 ≤ magnitude v := Real.sqrt_nonneg _

theorem sumSq_eq_zero {v : List ℝ} (h : sumSq v = 0) : ∀ x ∈ v, x = 0 := by
  induction v with
  | nil => simp
  | cons a l ih =>
    have h' : a * a + sumSq l = 0 := by simpa [sumSq] using h
    have h1 : a * a = 0 ∧ sumSq l = 0 := by
      constructor <;> nlinarith [mul_self_nonneg a, sumSq_nonneg l]
    intro x hx
    rcases List.mem_cons.1 hx with rfl | hx
    · exact mul_self_eq_zero.1 h1.1
    · exact ih h1.2 x hx

theorem sumSq_div (v : List ℝ) (c : ℝ) :
    sumSq (v.map (fun x => x / c)) = sumSq v / (c * c) := by
  induction v with
  | nil => simp [sumSq]
  | cons a l ih =>
    have hc : sumSq ((a :: l).map (fun x => x / c)) = a / c * (a / c) + sumSq (l.map (fun x => x / c)) := by
      simp [sumSq]
    rw [hc, ih, div_mul_div_comm, ← add_div]
    simp [sumSq]

theorem magnitude_normalized {v : List ℝ} (h : 0 < magnitude v) :
    magnitude (v.map (fun x => x / magnitude v)) = 1 := by
  have hs : sumSq v = magnitude v * magnitude v := (Real.mul_self_sqrt (sumSq_nonneg v)).symm
  rw [magnitude, sumSq_div, hs, div_self (by positivity), Real.sqrt_one]

theorem magnitude_eq_zero_entries {v : List ℝ} (h : ¬ 0 < magnitude v) : ∀ x ∈ v, x = 0 := by
  have hm : magnitude v = 0 := le_antisymm (not_lt.1 h) (magnitude_nonneg v)
  have hs : sumSq v = 0 :=
    le_antisymm (Real.sqrt_eq_zero'.1 hm) (sumSq_nonneg v)
  exact sumSq_eq_zero hs

theorem rawEmbedding_no_tokens {s : List Char} (hw : embedWords s = [])
    (ht : EmbedLocal.trigrams s = []) : EmbedLocal.rawEmbedding s = List.replicate 384 0 := by
  unfold EmbedLocal.rawEmbedding
  rw [hw, ht]
  rfl

theorem magnitude_replicate_zero (n : ℕ) : magnitude (List.replicate n (0:ℝ)) = 0 := by
  have h : sumSq (List.replicate n (0:ℝ)) = 0 := by
    simp [sumSq, List.map_replicate]
  rw [magnitude, h, Real.sqrt_zero]

theorem normalizeVec_replicate_zero (n : ℕ) :
    normalizeVec (List.replicate n (0:ℝ)) = List.replicate n 0 := by
  unfold normalizeVec
  rw [magnitude_replicate_zero, if_neg (lt_irrefl 0)]

/-- Claim C7 (amended): every vector returned by the local embedder either
has Euclidean norm exactly 1 (whenever the accumulated vector is nonzero)
or is the all-zero vector, and the empty string embeds to the all-zero
vector.  The original claim that the all-zero output occurs only for empty
input is refuted by `C7_counterexample`. -/
theorem C7_embedding_norm_one_or_zero :
    (∀ s : List Char,
      magnitude (EmbedLocal.generateLocalEmbedding s) = 1 ∨
        EmbedLocal.generateLocalEmbedding s = List.replicate 384 0) ∧
    EmbedLocal.generateLocalEmbedding [] = List.replicate 384 0 := by
  constructor
  · intro s
    unfold EmbedLocal.generateLocalEmbedding normalizeVec
    by_cases h : 0 < magnitude (EmbedLocal.rawEmbedding s)
    · left
      rw [if_pos h]
      exact magnitude_normalized h
    · right
      rw [if_neg h, List.eq_replicate_iff]
      exact ⟨rawEmbedding_length s, magnitude_eq_zero_entries h⟩
  · have hw : embedWords ([] : List Char) = [] := by decide
    have ht : EmbedLocal.trigrams ([] : List Char) = [] := rfl
    unfold EmbedLocal.generateLocalEmbedding
    rw [rawEmbedding_no_tokens hw ht, normalizeVec_replicate_zero]

/-- Claim C7 counterexample: `" "` is a non-empty input whose embedding is
the all-zero vector (its norm is 0, not 1): the all-zero output does not
occur only for empty input. -/
theorem C7_counterexample :
    EmbedLocal.generateLocalEmbedding (" ".toList) = List.replicate 384 0 ∧
    (" ".toList : List Char) ≠ [] ∧
    magnitude (EmbedLocal.generateLocalEmbedding (" ".toList)) ≠ 1 := by
  have hw : embedWords (" ".toList) = [] := by decide
  have ht : EmbedLocal.trigrams (" ".toList) = [] := rfl
  have he : EmbedLocal.generateLocalEmbedding (" ".toList) = List.replicate 384 0 := by
    unfold EmbedLocal.generateLocalEmbedding
    rw [rawEmbedding_no_tokens hw ht, normalizeVec_replicate_zero]
  refine ⟨he, by decide, ?_⟩
  rw [he, magnitude_replicate_zero]
  norm_num

/-- Claim C10: the local embedder is total: the returned vector always has
exactly 384 entries, every accumulation index — `(wordHash + i*17) % 384`,
`trigramHash % 384` and `(trigramHash*7) % 384` — lies in `[0, 384)`, and
`hashString` always returns a non-negative integer. -/
theorem C10_embedding_indices_in_bounds :
    ∀ s : List Char,
      (EmbedLocal.generateLocalEmbedding s).length = 384 ∧
      (∀ w : List Char, ∀ i : ℕ, wordPos w i < 384) ∧
      (∀ t : List Char, triPos1 t < 384 ∧ triPos2 t < 384) ∧
      (∀ t : List Char, 0 ≤ hashString t) := by
  intro s
  refine ⟨?_, ?_, ?_, fun t => abs_nonneg _⟩
  · unfold EmbedLocal.generateLocalEmbedding normalizeVec
    split
    · rw [List.length_map]
      exact rawEmbedding_length s
    · exact rawEmbedding_length s
  · intro w i
    have h1 : (0:ℤ) ≤ (hashString w + (i:ℤ) * 17) % 384 := Int.emod_nonneg _ (by norm_num)
    have h2 : (hashString w + (i:ℤ) * 17) % 384 < 384 := Int.emod_lt_of_pos _ (by norm_num)
    unfold wordPos
    omega
  · intro t
    constructor
    · have h1 : (0:ℤ) ≤ hashString t % 384 := Int.emod_nonneg _ (by norm_num)
      have h2 : hashString t % 384 < 384 := Int.emod_lt_of_pos _ (by norm_num)
      unfold triPos1
      omega
    · have h1 : (0:ℤ) ≤ hashString t * 7 % 384 := Int.emod_nonneg _ (by norm_num)
      have h2 : hashString t * 7 % 384 < 384 := Int.emod_lt_of_pos _ (by norm_num)
      unfold triPos2
      omega

/-- Claim C9 counterexample: the claimed replacement rule ("every character
that is not a letter, digit, or whitespace becomes a space",
`claimedNormalize`) is not the code's rule: the source's `/[^\w\s]/` keeps
underscore, so on `"snake_case"` the code keeps one token where the claimed
rule splits it into two. -/
theorem C9_counterexample :
    MindMap.claimedNormalize ("snake_case".toList) = ["snake".toList, "case".toList] ∧
    MindMap.filteredWords ("snake_case".toList) = ["snake_case".toList] ∧
    MindMap.claimedNormalize ("snake_case".toList) ≠
      MindMap.filteredWords ("snake_case".toList) := by decide

/-- Claim C9 (amended): the tokenizer/normalizer lower-cases, replaces
every character that is not a letter, digit, underscore or whitespace by a
space (the source's `\w` keeps underscore, so `"snake_case"` stays one
token), splits on whitespace runs, drops tokens of length ≤ 3 and drops
stop-words; in particular
`normalize("The Quick, quick FOX!") = ["quick", "quick"]` (`"fox"` has
length 3 and is dropped), and every surviving token has length > 3 and is
not a stop-word. -/
theorem C9_normalize_example_and_filters :
    MindMap.filteredWords ("The Quick, quick FOX!".toList) =
      ["quick".toList, "quick".toList] ∧
    MindMap.filteredWords ("snake_case".toList) = ["snake_case".toList] ∧
    ∀ (s w : List Char), w ∈ MindMap.filteredWords s →
      3 < w.length ∧ w ∉ MindMap.stopWords := by
  refine ⟨by decide, by decide, ?_⟩
  intro s w hw
  unfold MindMap.filteredWords at hw
  have h2 := List.mem_filter.1 hw
  have h1 := List.mem_filter.1 h2.1
  refine ⟨by simpa using h1.2, ?_⟩
  have h3 := h2.2
  simp only [Bool.not_eq_true'] at h3
  simpa using h3

/-- Witness for `C9_normalize_example_and_filters` at the concrete token
`"quick"` of the example document. -/
theorem C9_normalize_example_and_filters_witness :
    ("quick".toList ∈ MindMap.filteredWords ("The Quick, quick FOX!".toList)) ∧
      3 < ("quick".toList : List Char).length ∧ "quick".toList ∉ MindMap.stopWords :=
  ⟨by decide,
    C9_normalize_example_and_filters.2.2 ("The Quick, quick FOX!".toList) ("quick".toList)
      (by decide)⟩

/-- Claim C2 counterexample: for the non-empty texts `"a"` and `"b"` both
token sets are empty (all tokens have length ≤ 2), the union is empty, and
the source computes `0/0`, i.e. `NaN` (modelled `none`): the result is not
a finite value in `[0, 1]`. -/
theorem C2_counterexample :
    MindMap.calculateSemanticSimilarity ("a".toList) ("b".toList) = none := by decide

/-- Claim C3 counterexample: `"a"` is a non-empty string, yet
`textSimilarity("a", "a")` is the JavaScript `NaN` (modelled `none`), not 1:
its token set (tokens of length > 2) is empty, so the Jaccard term is
`0/0`. -/
theorem C3_counterexample :
    MindMap.calculateSemanticSimilarity ("a".toList) ("a".toList) ≠ some 1 ∧
      ("a".toList : List Char) ≠ [] := by decide

/-- The recency test, rewritten to an integer comparison so that concrete
instances reduce in the kernel: `(now - u) / 86400000 < 7` over `ℚ` is
equivalent to `now - u < 604800000` over `ℤ`. -/
theorem isRecent_iff (now u : ℤ) :
    NotesList.isRecent now u = decide (now - u < 604800000) := by
  unfold NotesList.isRecent
  rw [decide_eq_decide]
  rw [div_lt_iff₀ (by norm_num : (0:ℚ) < 86400000)]
  have h : (7 : ℚ) * 86400000 = ((604800000 : ℤ) : ℚ) := by norm_num
  rw [h]
  constructor
  · intro hlt
    exact_mod_cast hlt
  · intro hlt
    exact_mod_cast hlt

/-- Claim C5 counterexample, two failures of the original claim: (a)
against the query `"foo"` (no recency boost) the note titled exactly
`"foo"` scores 30 while a note whose title `"foox"` merely contains the
query but whose content repeats `"foo"` eleven times scores 43, so an
exact-title match does not always outscore a substring-title match; (b) a
note matching the query nowhere but updated within 7 days scores 1, not 0,
and is included in ranked results, not excluded. -/
theorem C5_counterexample :
    NotesList.searchScore exNow ("foo".toList) fooDoc = 30 ∧
    NotesList.searchScore exNow ("foo".toList) fooxDoc = 43 ∧
    jsToLower fooDoc.title = "foo".toList ∧
    jsIncludes (jsToLower fooxDoc.title) ("foo".toList) = true ∧
    jsToLower fooxDoc.title ≠ "foo".toList ∧
    NotesList.searchScore exNow ("foo".toList) fooDoc <
      NotesList.searchScore exNow ("foo".toList) fooxDoc ∧
    NotesList.searchScore exNow ("foo".toList) recentBarDoc = 1 ∧
    jsIncludes (jsToLower recentBarDoc.title) ("foo".toList) = false ∧
    (recentBarDoc, some (1:ℤ)) ∈
      NotesList.searchResults exNow ("foo".toList) [recentBarDoc] := by
  have h1 : NotesList.searchScore exNow ("foo".toList) fooDoc = 30 := by
    simp only [NotesList.searchScore, isRecent_iff]
    decide
  have h2 : NotesList.searchScore exNow ("foo".toList) fooxDoc = 43 := by
    simp only [NotesList.searchScore, isRecent_iff]
    decide
  have h3 : NotesList.searchScore exNow ("foo".toList) recentBarDoc = 1 := by
    simp only [NotesList.searchScore, isRecent_iff]
    decide
  have hq : NotesList.queryOf ("foo".toList) = "foo".toList := by decide
  have hmem : (recentBarDoc, some (1:ℤ)) ∈
      NotesList.searchResults exNow ("foo".toList) [recentBarDoc] := by
    unfold NotesList.searchResults
    rw [if_neg (by decide), hq]
    simp only [List.map_cons, List.map_nil, h3]
    decide
  exact ⟨h1, h2, by decide, by decide, by decide, by rw [h1, h2]; norm_num, h3, by decide, hmem⟩

/-- Claim C6: at the interface defaults (`sortBy = 'relevance'` is set
automatically when a query is typed while `sortOrder` remains `'desc'`),
the relevance comparator `b.score - a.score` is negated a second time by
the `'desc'` branch, so ranked output comes out ascending by score — the
lower-scored note first — contradicting the specified descending order;
flipping `sortOrder` to `'asc'` produces the descending order instead. -/
theorem C6_relevance_sort_inverted :
    NotesList.sortedResults NotesList.SortKey.relevance NotesList.SortDir.desc
        (NotesList.searchResults exNow ("foo".toList) [fooxDoc, fooDoc]) =
      [(fooDoc, some 30), (fooxDoc, some 43)] ∧
    NotesList.sortedResults NotesList.SortKey.relevance NotesList.SortDir.asc
        (NotesList.searchResults exNow ("foo".toList) [fooxDoc, fooDoc]) =
      [(fooxDoc, some 43), (fooDoc, some 30)] ∧
    (30 : ℤ) < 43 := by
  have hq : NotesList.queryOf ("foo".toList) = "foo".toList := by decide
  have h1 : NotesList.searchScore exNow ("foo".toList) fooDoc = 30 := by
    simp only [NotesList.searchScore, isRecent_iff]
    decide
  have h2 : NotesList.searchScore exNow ("foo".toList) fooxDoc = 43 := by
    simp only [NotesList.searchScore, isRecent_iff]
    decide
  have hs : NotesList.searchResults exNow ("foo".toList) [fooxDoc, fooDoc] =
      [(fooxDoc, some 43), (fooDoc, some 30)] := by
    unfold NotesList.searchResults
    rw [if_neg (by decide), hq]
    simp only [List.map_cons, List.map_nil, h1, h2]
    decide
  rw [hs]
  refine ⟨by decide, by decide, by norm_num⟩

theorem interSize_le_unionSize (a b : List (List Char)) :
    MindMap.interSize a b ≤ MindMap.unionSize a b := by
  unfold MindMap.interSize MindMap.unionSize
  apply List.Subperm.length_le
  apply List.subperm_of_subset
  · exact (List.nodup_dedup a).filter _
  · intro x hx
    have hx' := List.mem_filter.1 hx
    exact List.mem_dedup.2 (List.mem_append_left _ (List.mem_dedup.1 hx'.1))

/-- Claim C3 (amended): `textSimilarity(A, A) = 1` for every `A` whose token
set is non-empty; for a non-empty `A` with an empty token set the source
instead computes `0/0 = NaN` (`C3_counterexample`). -/
theorem C3_self_similarity_one :
    ∀ t : List Char, MindMap.simTokens t ≠ [] →
      MindMap.calculateSemanticSimilarity t t = some 1 := by
  intro t ht
  have htne : t ≠ [] := by
    intro h
    rw [h] at ht
    exact ht (by decide)
  have hd : (MindMap.simTokens t).dedup ≠ [] := by
    intro h
    exact ht ((List.dedup_eq_nil _).1 h)
  have hu : MindMap.unionSize (MindMap.simTokens t) (MindMap.simTokens t) =
      (MindMap.simTokens t).dedup.length := by
    unfold MindMap.unionSize
    rw [← List.card_toFinset, ← List.card_toFinset, List.toFinset_append, Finset.union_self]
  have hi : MindMap.interSize (MindMap.simTokens t) (MindMap.simTokens t) =
      (MindMap.simTokens t).dedup.length := by
    unfold MindMap.interSize
    congr 1
    apply List.filter_eq_self.2
    intro x hx
    have : x ∈ MindMap.simTokens t := List.mem_dedup.1 hx
    simpa [List.contains] using this
  have hdl : (0:ℚ) < (MindMap.simTokens t).dedup.length := by
    have := List.length_pos.2 hd
    exact_mod_cast this
  have hL : (0:ℚ) < (t.length : ℚ) := by
    have := List.length_pos.2 htne
    exact_mod_cast this
  unfold MindMap.calculateSemanticSimilarity
  rw [if_neg (by rw [hu]; intro h; rw [h] at hdl; norm_num at hdl)]
  rw [if_neg (by simp; intro h; exact htne h)]
  rw [hu, hi]
  congr 1
  rw [div_self (ne_of_gt hdl)]
  rw [max_self]
  rw [sub_self, abs_zero, zero_div]
  norm_num

/-- Witness for `C3_self_similarity_one` at the spec's Example 3,
`textSimilarity("the cat sat", "the cat sat") = 1`. -/
theorem C3_self_similarity_one_witness :
    MindMap.simTokens ("the cat sat".toList) ≠ [] ∧
      MindMap.calculateSemanticSimilarity ("the cat sat".toList) ("the cat sat".toList) =
        some 1 :=
  ⟨by decide, C3_self_similarity_one ("the cat sat".toList) (by decide)⟩

/-- Claim C2 (amended): whenever at least one of the two token sets is
non-empty, `textSimilarity` returns a defined rational in `[0, 1]`, and if
exactly one token set is empty the Jaccard term (the intersection size) is
0; when both token sets are empty the source instead divides `0/0` and
propagates `NaN` (`C2_counterexample`). -/
theorem C2_similarity_bounds :
    ∀ t1 t2 : List Char,
      (MindMap.simTokens t1 ≠ [] ∨ MindMap.simTokens t2 ≠ []) →
      (∃ q : ℚ, MindMap.calculateSemanticSimilarity t1 t2 = some q ∧ 0 ≤ q ∧ q ≤ 1) ∧
      ((MindMap.simTokens t1 = [] ∨ MindMap.simTokens t2 = []) →
        MindMap.interSize (MindMap.simTokens t1) (MindMap.simTokens t2) = 0) := by
  intro t1 t2 h
  have hne : ¬ (t1 = [] ∧ t2 = []) := by
    rintro ⟨rfl, rfl⟩
    rcases h with h | h <;> exact h (by decide)
  have huz : MindMap.unionSize (MindMap.simTokens t1) (MindMap.simTokens t2) ≠ 0 := by
    unfold MindMap.unionSize
    intro hz
    have hnil := (List.dedup_eq_nil _).1 (List.length_eq_zero.1 hz)
    rcases h with h | h
    · exact h (List.append_eq_nil.1 hnil).1
    · exact h (List.append_eq_nil.1 hnil).2
  have hmz : max t1.length t2.length ≠ 0 := by
    intro hz
    have h1 : t1.length = 0 := Nat.le_zero.1 (hz ▸ le_max_left _ _)
    have h2 : t2.length = 0 := Nat.le_zero.1 (hz ▸ le_max_right _ _)
    exact hne ⟨List.length_eq_zero.1 h1, List.length_eq_zero.1 h2⟩
  constructor
  · have hu : (0:ℚ) < (MindMap.unionSize (MindMap.simTokens t1) (MindMap.simTokens t2) : ℚ) := by
      exact_mod_cast Nat.pos_of_ne_zero huz
    have hm : (0:ℚ) < ((max t1.length t2.length : ℕ) : ℚ) := by
      exact_mod_cast Nat.pos_of_ne_zero hmz
    have hj0 : (0:ℚ) ≤
        (MindMap.interSize (MindMap.simTokens t1) (MindMap.simTokens t2) : ℚ) /
          (MindMap.unionSize (MindMap.simTokens t1) (MindMap.simTokens t2) : ℚ) :=
      div_nonneg (by positivity) (le_of_lt hu)
    have hj1 :
        (MindMap.interSize (MindMap.simTokens t1) (MindMap.simTokens t2) : ℚ) /
          (MindMap.unionSize (MindMap.simTokens t1) (MindMap.simTokens t2) : ℚ) ≤ 1 := by
      rw [div_le_one hu]
      exact_mod_cast interSize_le_unionSize _ _
    have habs : |(t1.length : ℚ) - (t2.length : ℚ)| ≤ ((max t1.length t2.length : ℕ) : ℚ) := by
      have hc1 : (t1.length : ℚ) ≤ ((max t1.length t2.length : ℕ) : ℚ) := by
        exact_mod_cast le_max_left t1.length t2.length
      have hc2 : (t2.length : ℚ) ≤ ((max t1.length t2.length : ℕ) : ℚ) := by
        exact_mod_cast le_max_right t1.length t2.length
      have hp1 : (0:ℚ) ≤ (t1.length : ℚ) := by positivity
      have hp2 : (0:ℚ) ≤ (t2.length : ℚ) := by positivity
      rw [abs_le]
      constructor <;> linarith
    have hd0 : (0:ℚ) ≤ |(t1.length : ℚ) - (t2.length : ℚ)| / ((max t1.length t2.length : ℕ) : ℚ) :=
      div_nonneg (abs_nonneg _) (le_of_lt hm)
    have hd1 : |(t1.length : ℚ) - (t2.length : ℚ)| / ((max t1.length t2.length : ℕ) : ℚ) ≤ 1 := by
      rw [div_le_one hm]
      exact habs
    refine ⟨((MindMap.interSize (MindMap.simTokens t1) (MindMap.simTokens t2) : ℚ) /
        (MindMap.unionSize (MindMap.simTokens t1) (MindMap.simTokens t2) : ℚ)) * 0.7 +
        (1 - |(t1.length : ℚ) - (t2.length : ℚ)| / ((max t1.length t2.length : ℕ) : ℚ)) * 0.3,
      ?_, ?_, ?_⟩
    · unfold MindMap.calculateSemanticSimilarity
      rw [if_neg huz, if_neg hmz]
    · nlinarith
    · nlinarith
  · intro hone
    unfold MindMap.interSize
    rcases hone with hz | hz
    · rw [hz]
      rfl
    · rw [hz]
      simp [List.contains]

/-- Witness for `C2_similarity_bounds` at `("the cat sat", "a")`: the first
token set is non-empty, the second is empty. -/
theorem C2_similarity_bounds_witness :
    (MindMap.simTokens ("the cat sat".toList) ≠ [] ∨ MindMap.simTokens ("a".toList) ≠ []) ∧
    ((∃ q : ℚ,
        MindMap.calculateSemanticSimilarity ("the cat sat".toList) ("a".toList) = some q ∧
          0 ≤ q ∧ q ≤ 1) ∧
      ((MindMap.simTokens ("the cat sat".toList) = [] ∨ MindMap.simTokens ("a".toList) = []) →
        MindMap.interSize (MindMap.simTokens ("the cat sat".toList))
          (MindMap.simTokens ("a".toList)) = 0)) :=
  ⟨Or.inl (by decide), C2_similarity_bounds ("the cat sat".toList) ("a".toList)
    (Or.inl (by decide))⟩

theorem foldl_ite_add_sum {α : Type} (p : α → Bool) (g : α → ℤ) :
    ∀ (l : List α) (init : ℤ),
      l.foldl (fun acc x => if p x then acc + g x else acc) init =
        init + (l.map (fun x => if p x then g x else 0)).sum := by
  intro l
  induction l with
  | nil => intro init; simp
  | cons a l ih =>
    intro init
    cases hpa : p a
    · simp [hpa, ih]
    · simp [hpa, ih]
      ring

theorem foldl_foldl_ite_add_sum {α β : Type} (cond : α → β → Bool) (val : α → β → ℤ)
    (cws : List α) :
    ∀ (qws : List β) (init : ℤ),
      qws.foldl (fun acc qw =>
        cws.foldl (fun acc2 w => if cond w qw then acc2 + val w qw else acc2) acc) init =
      init +
        (qws.map (fun qw =>
          (cws.map (fun w => if cond w qw then val w qw else 0)).sum)).sum := by
  intro qws
  induction qws with
  | nil => intro init; simp
  | cons q l ih =>
    intro init
    rw [List.foldl_cons, ih, foldl_ite_add_sum (fun w => cond w q) (fun w => val w q) cws init]
    simp only [List.map_cons, List.sum_cons]
    ring

theorem searchScore_eq_sum (now : ℤ) (q : List Char) (n : NotesList.Doc) :
    NotesList.searchScore now q n =
      (if jsIncludes (jsToLower n.title) q then 10 else 0)
      + (if jsToLower n.title = q then 20 else 0)
      + 5 * ((n.tags.filter (fun tag => jsIncludes (jsToLower tag) q)).length : ℤ)
      + (if n.tags.any (fun tag => jsToLower tag = q) then 10 else 0)
      + ((splitRuns isSpaceChar q).map (fun qw =>
          ((splitRuns isSpaceChar (jsToLower n.content)).map (fun w =>
            if jsIncludes w qw then (if w = qw then (3:ℤ) else 1) else 0)).sum)).sum
      + (if NotesList.isRecent now n.updatedAt then 1 else 0) := by
  simp only [NotesList.searchScore]
  rw [foldl_foldl_ite_add_sum (fun w qw => jsIncludes w qw)
    (fun w qw => if w = qw then (3:ℤ) else 1)]
  ring

/-- Claim C4: for every note and every query that does not trim to empty,
the relevance score equals the additive sum of: +10 if the lower-cased
title contains the query, +20 more if it equals it, +5 per tag containing
the query, +10 more if some tag equals it, +3/+1 per (query-word,
content-word) pair with the content word containing (resp. equalling) the
query word, and +1 if the note was updated less than 7 days ago; ranked
results contain exactly the notes of positive score. -/
theorem C4_relevance_score_additive :
    ∀ (now : ℤ) (sq : List Char) (notes : List NotesList.Doc) (n : NotesList.Doc),
      jsTrim sq ≠ [] →
      (NotesList.searchScore now (NotesList.queryOf sq) n =
          (if jsIncludes (jsToLower n.title) (NotesList.queryOf sq) then 10 else 0)
          + (if jsToLower n.title = NotesList.queryOf sq then 20 else 0)
          + 5 * ((n.tags.filter
              (fun tag => jsIncludes (jsToLower tag) (NotesList.queryOf sq))).length : ℤ)
          + (if n.tags.any (fun tag => jsToLower tag = NotesList.queryOf sq) then 10 else 0)
          + ((splitRuns isSpaceChar (NotesList.queryOf sq)).map (fun qw =>
              ((splitRuns isSpaceChar (jsToLower n.content)).map (fun w =>
                if jsIncludes w qw then (if w = qw then (3:ℤ) else 1) else 0)).sum)).sum
          + (if NotesList.isRecent now n.updatedAt then 1 else 0)) ∧
      (∀ p ∈ NotesList.searchResults now sq notes, 0 < p.2.getD 0) ∧
      (∀ m ∈ notes, 0 < NotesList.searchScore now (NotesList.queryOf sq) m →
        (m, some (NotesList.searchScore now (NotesList.queryOf sq) m)) ∈
          NotesList.searchResults now sq notes) := by
  intro now sq notes n hq
  refine ⟨searchScore_eq_sum now (NotesList.queryOf sq) n, ?_, ?_⟩
  · intro p hp
    unfold NotesList.searchResults at hp
    rw [if_neg hq] at hp
    have h := (List.mem_filter.1 hp).2
    exact of_decide_eq_true h
  · intro m hm hpos
    unfold NotesList.searchResults
    rw [if_neg hq]
    refine List.mem_filter.2 ⟨List.mem_map.2 ⟨m, hm, rfl⟩, ?_⟩
    simpa using hpos

/-- Witness for `C4_relevance_score_additive` at the query `"foo"` and the
note `fooDoc`. -/
theorem C4_relevance_score_additive_witness :
    jsTrim ("foo".toList) ≠ [] ∧
    NotesList.searchScore exNow (NotesList.queryOf ("foo".toList)) fooDoc =
      (if jsIncludes (jsToLower fooDoc.title) (NotesList.queryOf ("foo".toList)) then 10 else 0)
      + (if jsToLower fooDoc.title = NotesList.queryOf ("foo".toList) then 20 else 0)
      + 5 * ((fooDoc.tags.filter
          (fun tag => jsIncludes (jsToLower tag) (NotesList.queryOf ("foo".toList)))).length : ℤ)
      + (if fooDoc.tags.any (fun tag => jsToLower tag = NotesList.queryOf ("foo".toList))
          then 10 else 0)
      + ((splitRuns isSpaceChar (NotesList.queryOf ("foo".toList))).map (fun qw =>
          ((splitRuns isSpaceChar (jsToLower fooDoc.content)).map (fun w =>
            if jsIncludes w qw then (if w = qw then (3:ℤ) else 1) else 0)).sum)).sum
      + (if NotesList.isRecent exNow fooDoc.updatedAt then 1 else 0) :=
  ⟨by decide,
    (C4_relevance_score_additive exNow ("foo".toList) [fooDoc] fooDoc (by decide)).1⟩

theorem iteScore_nonneg {c : Prop} [Decidable c] {a b : ℤ} (ha : 0 ≤ a) (hb : 0 ≤ b) :
    0 ≤ if c then a else b := by
  split
  · exact ha
  · exact hb

theorem contentSum_nonneg (q content : List Char) :
    0 ≤ ((splitRuns isSpaceChar q).map (fun qw =>
        ((splitRuns isSpaceChar content).map (fun w =>
          if jsIncludes w qw then (if w = qw then (3:ℤ) else 1) else 0)).sum)).sum := by
  apply List.sum_nonneg
  intro x hx
  obtain ⟨qw, -, rfl⟩ := List.mem_map.1 hx
  apply List.sum_nonneg
  intro y hy
  obtain ⟨w, -, rfl⟩ := List.mem_map.1 hy
  exact iteScore_nonneg (iteScore_nonneg (by norm_num) (by norm_num)) le_rfl

/-- Claim C5 (amended): a note whose lower-cased title exactly equals the
query scores strictly higher than a note whose title merely contains it,
provided the two notes have identical tags, content and update time (the
equal-contribution proviso forced by counterexample (a)); a note whose
title contains the query (score at least 10) scores strictly higher than a
note with no title, tag or content match (whose score is its recency boost
alone, at most 1); and such a no-match note scores 0 and is excluded from
ranked results when it has no recency boost — with a recency boost it
scores 1 and is included, counterexample (b). -/
theorem C5_exact_beats_contains :
    ∀ (now : ℤ) (sq : List Char) (d1 d2 d3 : NotesList.Doc),
      NotesList.queryOf sq ≠ [] →
      jsToLower d1.title = NotesList.queryOf sq →
      jsIncludes (jsToLower d2.title) (NotesList.queryOf sq) = true →
      jsToLower d2.title ≠ NotesList.queryOf sq →
      d1.tags = d2.tags → d1.content = d2.content → d1.updatedAt = d2.updatedAt →
      jsIncludes (jsToLower d3.title) (NotesList.queryOf sq) = false →
      (∀ tag ∈ d3.tags, jsIncludes (jsToLower tag) (NotesList.queryOf sq) = false) →
      (∀ tag ∈ d3.tags, jsToLower tag ≠ NotesList.queryOf sq) →
      (∀ w ∈ splitRuns isSpaceChar (jsToLower d3.content),
        ∀ qw ∈ splitRuns isSpaceChar (NotesList.queryOf sq), jsIncludes w qw = false) →
      (NotesList.searchScore now (NotesList.queryOf sq) d2 <
        NotesList.searchScore now (NotesList.queryOf sq) d1) ∧
      (NotesList.searchScore now (NotesList.queryOf sq) d3 <
        NotesList.searchScore now (NotesList.queryOf sq) d2) ∧
      (NotesList.isRecent now d3.updatedAt = false →
        NotesList.searchScore now (NotesList.queryOf sq) d3 = 0 ∧
          ∀ notes, (d3, some (NotesList.searchScore now (NotesList.queryOf sq) d3)) ∉
            NotesList.searchResults now sq notes) := by
  intro now sq d1 d2 d3 hq ht1 ht2 ht2ne htags hcontent hupd h3t h3tags h3tageq h3content
  have h3teq : jsToLower d3.title ≠ NotesList.queryOf sq := by
    intro he
    rw [he] at h3t
    have htrue : jsIncludes (NotesList.queryOf sq) (NotesList.queryOf sq) = true :=
      decide_eq_true ⟨[], [], by simp⟩
    rw [htrue] at h3t
    exact Bool.noConfusion h3t
  have hfil : d3.tags.filter
      (fun tag => jsIncludes (jsToLower tag) (NotesList.queryOf sq)) = [] := by
    rw [List.filter_eq_nil_iff]
    intro tag htag
    rw [h3tags tag htag]
    simp
  have hany : d3.tags.any (fun tag => jsToLower tag = NotesList.queryOf sq) = false := by
    rw [List.any_eq_false]
    intro tag htag
    simpa using h3tageq tag htag
  have hsum : ((splitRuns isSpaceChar (NotesList.queryOf sq)).map (fun qw =>
      ((splitRuns isSpaceChar (jsToLower d3.content)).map (fun w =>
        if jsIncludes w qw then (if w = qw then (3:ℤ) else 1) else 0)).sum)).sum = 0 := by
    apply List.sum_eq_zero
    intro x hx
    obtain ⟨qw, hqw, rfl⟩ := List.mem_map.1 hx
    apply List.sum_eq_zero
    intro y hy
    obtain ⟨w, hw, rfl⟩ := List.mem_map.1 hy
    rw [h3content w hw qw hqw]
    simp
  have hd3 : NotesList.searchScore now (NotesList.queryOf sq) d3 =
      (if NotesList.isRecent now d3.updatedAt then 1 else 0) := by
    rw [searchScore_eq_sum, h3t, hfil, hany, hsum, if_neg h3teq]
    simp
  have hd3le : NotesList.searchScore now (NotesList.queryOf sq) d3 ≤ 1 := by
    rw [hd3]
    split
    · exact le_rfl
    · norm_num
  have h2ge : 10 ≤ NotesList.searchScore now (NotesList.queryOf sq) d2 := by
    rw [searchScore_eq_sum, if_pos ht2]
    have e1 : (0:ℤ) ≤ if jsToLower d2.title = NotesList.queryOf sq then 20 else 0 :=
      iteScore_nonneg (by norm_num) le_rfl
    have e2 : (0:ℤ) ≤ 5 * ((d2.tags.filter
        (fun tag => jsIncludes (jsToLower tag) (NotesList.queryOf sq))).length : ℤ) := by
      positivity
    have e3 : (0:ℤ) ≤
        if d2.tags.any (fun tag => jsToLower tag = NotesList.queryOf sq) then 10 else 0 :=
      iteScore_nonneg (by norm_num) le_rfl
    have e4 := contentSum_nonneg (NotesList.queryOf sq) (jsToLower d2.content)
    have e5 : (0:ℤ) ≤ if NotesList.isRecent now d2.updatedAt then 1 else 0 :=
      iteScore_nonneg (by norm_num) le_rfl
    linarith
  refine ⟨?_, ?_, ?_⟩
  · have h1c : jsIncludes (jsToLower d1.title) (NotesList.queryOf sq) = true := by
      rw [ht1]
      unfold jsIncludes
      exact decide_eq_true ⟨[], [], by simp⟩
    rw [searchScore_eq_sum, searchScore_eq_sum, h1c, ht2, ht1, ← htags, ← hcontent, ← hupd,
      if_pos rfl, if_neg ht2ne]
    simp only [if_true]
    linarith
  · linarith
  · intro h3rec
    have hscore : NotesList.searchScore now (NotesList.queryOf sq) d3 = 0 := by
      rw [hd3, h3rec]
      simp
    refine ⟨hscore, ?_⟩
    intro notes hmem
    unfold NotesList.searchResults at hmem
    by_cases he : jsTrim sq = []
    · rw [if_pos he] at hmem
      obtain ⟨m, -, hpair⟩ := List.mem_map.1 hmem
      exact Option.noConfusion (congrArg Prod.snd hpair)
    · rw [if_neg he] at hmem
      have h := (List.mem_filter.1 hmem).2
      rw [hscore] at h
      simp at h

/-- Witness for `C5_exact_beats_contains` at the query `"foo"` with
`fooDoc` (exact title), `fooxPlainDoc` (containing title, same tags,
content and update time) and `barDoc` (no match). -/
theorem C5_exact_beats_contains_witness :
    NotesList.queryOf ("foo".toList) ≠ [] ∧
    (NotesList.searchScore exNow (NotesList.queryOf ("foo".toList)) fooxPlainDoc <
      NotesList.searchScore exNow (NotesList.queryOf ("foo".toList)) fooDoc) ∧
    (NotesList.searchScore exNow (NotesList.queryOf ("foo".toList)) barDoc <
      NotesList.searchScore exNow (NotesList.queryOf ("foo".toList)) fooxPlainDoc) :=
  have h := C5_exact_beats_contains exNow ("foo".toList) fooDoc fooxPlainDoc barDoc (by decide)
    (by decide) (by decide) (by decide) rfl rfl rfl (by decide) (by decide) (by decide)
    (by decide)
  ⟨by decide, h.1, h.2.1⟩

theorem vget_vadd_ne {v : List ℝ} {i j : ℕ} (h : i ≠ j) (x : ℝ) :
    vget (vadd v i x) j = vget v j := by
  unfold vget vadd
  rw [List.getElem?_set_ne h]

theorem vget_vadd_self {v : List ℝ} {i : ℕ} (h : i < v.length) (x : ℝ) :
    vget (vadd v i x) i = vget v i + x := by
  unfold vget vadd
  rw [List.getElem?_set_self h]
  rfl

theorem vget_replicate {n i : ℕ} (h : i < n) : vget (List.replicate n (0:ℝ)) i = 0 := by
  unfold vget
  rw [List.getElem?_replicate, if_pos h]
  rfl

theorem vget_map_div {v : List ℝ} {i : ℕ} (h : i < v.length) (c : ℝ) :
    vget (v.map (fun x => x / c)) i = vget v i / c := by
  unfold vget
  rw [List.getElem?_map, List.getElem?_eq_getElem h]
  rfl

theorem hfAddWord_length (v : List ℝ) (index : ℕ) (w : List Char) :
    (ChatHf.addWord v index w).length = v.length := by
  unfold ChatHf.addWord
  exact foldl_length_const _ (fun v i => vadd_length _ _ _) _ _

theorem hfAddTrigram_length (v : List ℝ) (t : List Char) :
    (ChatHf.addTrigram v t).length = v.length := by
  unfold ChatHf.addTrigram
  rw [vadd_length, vadd_length]

theorem addFeatures_length (s : List Char) (v : List ℝ) :
    (ChatHf.addFeatures s v).length = v.length := by
  simp only [ChatHf.addFeatures]
  exact foldl_length_const _
    (fun v i => by rw [vadd_length, vadd_length, vadd_length]) _ _

theorem vget40_features_aux (A B C : ℝ) :
    ∀ (l : List ℕ) (v : List ℝ), (∀ i ∈ l, 0 < i ∧ i < 20) →
      vget (l.foldl (fun acc i =>
        vadd (vadd (vadd acc i A) (i + 20) B) (i + 40) C) v) 40 = vget v 40 := by
  intro l
  induction l with
  | nil => intro v _; rfl
  | cons a l ih =>
    intro v hmem
    obtain ⟨ha0, ha20⟩ := hmem a (List.mem_cons_self a l)
    rw [List.foldl_cons, ih _ (fun i hi => hmem i (List.mem_cons_of_mem a hi))]
    rw [vget_vadd_ne (by omega), vget_vadd_ne (by omega), vget_vadd_ne (by omega)]

theorem vget40_addFeatures (s : List Char) (v : List ℝ) (hlen : 40 < v.length) :
    vget (ChatHf.addFeatures s v) 40 = vget v 40 + (s.length : ℝ) * 0.001 := by
  simp only [ChatHf.addFeatures]
  have hr : List.range 20 = 0 :: List.range' 1 19 := by decide
  rw [hr, List.foldl_cons]
  rw [vget40_features_aux _ _ _ (List.range' 1 19) _
    (by intro i hi; have := List.mem_range'_1.1 hi; omega)]
  have h20 : (0:ℕ) + 20 = 20 := by norm_num
  have h40 : (0:ℕ) + 40 = 40 := by norm_num
  rw [h20, h40]
  rw [vget_vadd_self (by rw [vadd_length, vadd_length]; omega)]
  rw [vget_vadd_ne (by norm_num), vget_vadd_ne (by norm_num)]

/-- Claim C1 (code-bug evidence): the stored-chunk embedder
(generate-embeddings-local) and the chat-query embedder (gemini-chat-hf) do
not compute the same function: at the input `"!!!"` the first returns a
vector whose entry 40 is 0 (its only contributions are the raw-text trigram
increments at indices 129 and 135), while the second returns a nonzero
entry 40 (its length feature adds `3 * 0.001` at indices 40–59), so the two
embeddings of the same text differ. -/
theorem C1_embedders_disagree :
    vget (EmbedLocal.generateLocalEmbedding bangs) 40 = 0 ∧
    vget (ChatHf.generateLocalEmbedding bangs) 40 ≠ 0 ∧
    EmbedLocal.generateLocalEmbedding bangs ≠ ChatHf.generateLocalEmbedding bangs := by
  have hw : embedWords bangs = [] := by decide
  have ht : EmbedLocal.trigrams bangs = [bangs] := by decide
  have hp1 : triPos1 bangs = 129 := by decide
  have hp2 : triPos2 bangs = 135 := by decide
  have hraw : EmbedLocal.rawEmbedding bangs =
      EmbedLocal.addTrigram (List.replicate 384 0) bangs := by
    unfold EmbedLocal.rawEmbedding
    rw [hw, ht]
    rfl
  have hlraw40 : vget (EmbedLocal.rawEmbedding bangs) 40 = 0 := by
    rw [hraw]
    unfold EmbedLocal.addTrigram
    rw [hp1, hp2, vget_vadd_ne (by norm_num), vget_vadd_ne (by norm_num)]
    exact vget_replicate (by norm_num)
  have hlocal : vget (EmbedLocal.generateLocalEmbedding bangs) 40 = 0 := by
    unfold EmbedLocal.generateLocalEmbedding normalizeVec
    split
    · rw [vget_map_div (by rw [rawEmbedding_length]; norm_num), hlraw40, zero_div]
    · exact hlraw40
  have htr : ChatHf.trigrams bangs = [] := by decide
  have hpre : (ChatHf.trigrams bangs).foldl ChatHf.addTrigram
      ((embedWords bangs).enum.foldl (fun acc p => ChatHf.addWord acc p.1 p.2)
        (List.replicate 384 0)) = List.replicate 384 0 := by
    rw [hw, htr]
    rfl
  have hblen : bangs.length = 3 := by decide
  have hfeat40 : vget (ChatHf.addFeatures bangs (List.replicate 384 0)) 40 = 0.003 := by
    rw [vget40_addFeatures bangs _ (by rw [List.length_replicate]; norm_num),
      vget_replicate (by norm_num), hblen]
    norm_num
  have hfeatlen : (ChatHf.addFeatures bangs (List.replicate 384 0)).length = 384 := by
    rw [addFeatures_length, List.length_replicate]
  have h40lt : (40:ℕ) < (ChatHf.addFeatures bangs (List.replicate 384 0)).length := by
    rw [hfeatlen]
    norm_num
  have hS : 0 < sumSq (ChatHf.addFeatures bangs (List.replicate 384 0)) := by
    have hsome : (ChatHf.addFeatures bangs (List.replicate 384 0))[40]? = some (0.003 : ℝ) := by
      rw [List.getElem?_eq_getElem h40lt]
      have : vget (ChatHf.addFeatures bangs (List.replicate 384 0)) 40 =
          (ChatHf.addFeatures bangs (List.replicate 384 0))[40] := by
        unfold vget
        rw [List.getElem?_eq_getElem h40lt]
        rfl
      rw [← this, hfeat40]
    have hmem : ((0.003 : ℝ) * 0.003) ∈
        (ChatHf.addFeatures bangs (List.replicate 384 0)).map (fun x => x * x) := by
      exact @List.getElem?_mem ℝ _ 40 _ (by rw [List.getElem?_map, hsome]; rfl)
    have hle : ((0.003 : ℝ) * 0.003) ≤ sumSq (ChatHf.addFeatures bangs (List.replicate 384 0)) := by
      apply List.single_le_sum _ _ hmem
      intro x hx
      obtain ⟨y, -, rfl⟩ := List.mem_map.1 hx
      exact mul_self_nonneg y
    exact lt_of_lt_of_le (by norm_num) hle
  have hmagpos : 0 < magnitude (ChatHf.addFeatures bangs (List.replicate 384 0)) :=
    Real.sqrt_pos.2 hS
  have hhf : vget (ChatHf.generateLocalEmbedding bangs) 40 =
      0.003 / magnitude (ChatHf.addFeatures bangs (List.replicate 384 0)) := by
    unfold ChatHf.generateLocalEmbedding normalizeVec
    rw [hpre, if_pos hmagpos, vget_map_div h40lt, hfeat40]
  have hne : vget (ChatHf.generateLocalEmbedding bangs) 40 ≠ 0 := by
    rw [hhf]
    exact div_ne_zero (by norm_num) (ne_of_gt hmagpos)
  refine ⟨hlocal, hne, ?_⟩
  intro he
  rw [he] at hlocal
  exact hne hlocal

theorem dedupFirstAux_mem : ∀ (l seen : List (List Char)) (x : List Char),
    x ∈ MindMap.dedupFirstAux seen l → x ∈ l := by
  intro l
  induction l with
  | nil => intro seen x hx; simp [MindMap.dedupFirstAux] at hx
  | cons a l ih =>
    intro seen x hx
    rw [MindMap.dedupFirstAux] at hx
    by_cases h : seen.contains a
    · rw [if_pos h] at hx
      exact List.mem_cons_of_mem _ (ih seen x hx)
    · rw [if_neg h] at hx
      rcases List.mem_cons.1 hx with rfl | hx
      · exact List.mem_cons_self _ _
      · exact List.mem_cons_of_mem _ (ih _ x hx)

theorem dedupFirst_mem : ∀ (l : List (List Char)) (x : List Char),
    x ∈ MindMap.dedupFirst l → x ∈ l :=
  fun l x hx => dedupFirstAux_mem l [] x hx

